import Mathlib

/-!
Verification development for the on-device face-detection decode pipeline,
the adaptive size-bounded image encoder, and the capture/upload orchestration
of the EmoTutor browser overlay.

Sources embedded here:
* `src/frontend/services/detectionService.ts` (grid preparation, per-proposal
  decode, confidence thresholding, non-max suppression, IoU);
* `src/frontend/hooks/useDraggable.ts` (`cropResizeToBlob`, the quality-stepping
  byte-budget search with WebP fallback);
* `src/App.tsx` (`captureAndProcess`, the per-cycle orchestration with the
  `isUploadingRef` in-flight guard).

Modelling conventions: JavaScript numbers are modelled as rationals (`ℚ`);
`Math.floor` on non-negative quotients of integers is `Nat` division.  The
function `sigmoid(x) = 1 / (1 + exp (-x))` is transcendental, so it is modelled
as an explicit parameter `σ : ℚ → ℚ`; the only facts about it that any proof
uses are the range facts `0 < σ q` and `σ q < 1`, which the real sigmoid
satisfies, and they are taken as hypotheses where needed (`SigmoidLike`).
Browser capabilities (canvas encoding, video elements, network upload) are
modelled as explicit function/value parameters, with thrown exceptions as
`Except`/`Option` results.
-/

namespace EmoCore

/-! ## Constants from detectionService.ts -/

/-- Spatial width of MODEL_INPUT_SHAPE = [1, 3, 640, 640]. -/
def MODEL_INPUT_WIDTH : Nat := 640

/-- Spatial height of MODEL_INPUT_SHAPE. -/
def MODEL_INPUT_HEIGHT : Nat := 640

/-- const STRIDES = [8, 16, 32]. -/
def STRIDES : List Nat := [8, 16, 32]

/-- const CONFIDENCE_THRESHOLD = 0.35. -/
def CONFIDENCE_THRESHOLD : ℚ := 35 / 100

/-- const NMS_THRESHOLD = 0.45. -/
def NMS_THRESHOLD : ℚ := 45 / 100

/-- A bounding box as produced by the decoder: position, size, confidence. -/
structure BoundingBox where
  x : ℚ
  y : ℚ
  w : ℚ
  h : ℚ
  confidence : ℚ
deriving DecidableEq

/-- One anchor-grid proposal.  The source keeps three parallel arrays
`gridX`, `gridY`, `stridePerProposal` that are pushed to in lockstep; they are
the three component projections of this list of entries. -/
structure GridEntry where
  gridX : Nat
  gridY : Nat
  stride : Nat
deriving DecidableEq

/-- Sigmoid-range property: `sigmoid` maps every real into the open interval
(0, 1).  This is the only property of `sigmoid` any claim below depends on. -/
def SigmoidLike (σ : ℚ → ℚ) : Prop := ∀ q : ℚ, 0 < σ q ∧ σ q < 1

/-! ## prepareGrids (detectionService.ts lines 98-116)

The inner `for (let x = 0; x < nx; x++)` and outer `for (let y = 0; y < ny; y++)`
loops, with `push` modelled as appending to the accumulator list. -/

/-- Inner loop of `prepareGrids`: starting at column `x`, while `x < nx`,
push the entry for `(x, y)` and advance. -/
def gridRowLoop (stride y nx : Nat) (x : Nat) (acc : List GridEntry) :
    List GridEntry :=
  if x < nx then
    gridRowLoop stride y nx (x + 1) (acc ++ [⟨x, y, stride⟩])
  else acc
termination_by nx - x
decreasing_by omega

/-- Outer loop of `prepareGrids`: starting at row `y`, while `y < ny`,
run the row loop for `y` and advance. -/
def gridColLoop (stride ny nx : Nat) (y : Nat) (acc : List GridEntry) :
    List GridEntry :=
  if y < ny then
    gridColLoop stride ny nx (y + 1) (gridRowLoop stride y nx 0 acc)
  else acc
termination_by ny - y
decreasing_by omega

/-- `prepareGrids`: for each stride in order, `nx = floor(W/s)`,
`ny = floor(H/s)`, and the nested raster loops push one entry per cell.
`numProposals` in the source is the length of this list. -/
def prepareGrids (modelWidth modelHeight : Nat) (strides : List Nat) :
    List GridEntry :=
  strides.foldl
    (fun acc s => gridColLoop s (modelHeight / s) (modelWidth / s) 0 acc) []

/-- Closed form of the inner loop: it appends the remaining `nx - x` raster
entries of row `y` to the accumulator. -/
theorem gridRowLoop_eq (stride y nx : Nat) :
    ∀ x acc, gridRowLoop stride y nx x acc =
      acc ++ (List.range' x (nx - x)).map (fun k => ⟨k, y, stride⟩) := by
  suffices key : ∀ fuel x, nx - x = fuel → ∀ acc,
      gridRowLoop stride y nx x acc =
        acc ++ (List.range' x (nx - x)).map (fun k => ⟨k, y, stride⟩) by
    intro x acc
    exact key _ x rfl acc
  intro fuel
  induction fuel using Nat.strong_induction_on with
  | _ fuel ih =>
    intro x hfuel acc
    rw [gridRowLoop]
    by_cases hx : x < nx
    · simp only [if_pos hx]
      have hfuel' : nx - (x + 1) < fuel := by omega
      have hr : nx - x = (nx - (x + 1)) + 1 := by omega
      rw [ih _ hfuel' (x + 1) rfl, hr, List.range'_succ]
      simp [List.append_assoc]
    · simp only [if_neg hx]
      have : nx - x = 0 := by omega
      simp [this]

/-- Closed form of the outer loop: it appends the remaining rows, each in
raster order with `x` innermost. -/
theorem gridColLoop_eq (stride ny nx : Nat) :
    ∀ y acc, gridColLoop stride ny nx y acc =
      acc ++ (List.range' y (ny - y)).flatMap
        (fun j => (List.range nx).map (fun k => ⟨k, j, stride⟩)) := by
  suffices key : ∀ fuel y, ny - y = fuel → ∀ acc,
      gridColLoop stride ny nx y acc =
        acc ++ (List.range' y (ny - y)).flatMap
          (fun j => (List.range nx).map (fun k => ⟨k, j, stride⟩)) by
    intro y acc
    exact key _ y rfl acc
  intro fuel
  induction fuel using Nat.strong_induction_on with
  | _ fuel ih =>
    intro y hfuel acc
    rw [gridColLoop]
    by_cases hy : y < ny
    · simp only [if_pos hy]
      have hfuel' : ny - (y + 1) < fuel := by omega
      have hr : ny - y = (ny - (y + 1)) + 1 := by omega
      rw [ih _ hfuel' (y + 1) rfl, gridRowLoop_eq, hr, List.range'_succ]
      simp only [Nat.sub_zero, List.flatMap_cons, List.append_assoc,
        List.range_eq_range']
    · simp only [if_neg hy]
      have : ny - y = 0 := by omega
      simp [this]

/-- The grid build in closed form: for each stride in the given order, all
cells in raster order (`x` innermost), concatenated. -/
theorem prepareGrids_eq (modelWidth modelHeight : Nat) (strides : List Nat) :
    prepareGrids modelWidth modelHeight strides =
      strides.flatMap (fun s =>
        (List.range (modelHeight / s)).flatMap (fun gy =>
          (List.range (modelWidth / s)).map (fun gx => ⟨gx, gy, s⟩))) := by
  suffices key : ∀ (l : List Nat) (acc : List GridEntry),
      l.foldl (fun acc s =>
        gridColLoop s (modelHeight / s) (modelWidth / s) 0 acc) acc =
      acc ++ l.flatMap (fun s =>
        (List.range (modelHeight / s)).flatMap (fun gy =>
          (List.range (modelWidth / s)).map (fun gx => ⟨gx, gy, s⟩))) by
    simpa [prepareGrids] using key strides []
  intro l
  induction l with
  | nil => simp
  | cons s t ih =>
    intro acc
    rw [List.foldl_cons, ih, gridColLoop_eq]
    simp [List.range_eq_range', List.append_assoc]

/-- Length of the grid: the sum over strides of `floor(W/s) * floor(H/s)`. -/
theorem prepareGrids_length (modelWidth modelHeight : Nat) (strides : List Nat) :
    (prepareGrids modelWidth modelHeight strides).length =
      (strides.map (fun s => (modelWidth / s) * (modelHeight / s))).sum := by
  rw [prepareGrids_eq]
  induction strides with
  | nil => simp
  | cons s t ih =>
    simp only [List.flatMap_cons, List.length_append, List.map_cons,
      List.sum_cons, ih, List.length_flatMap]
    congr 1
    have : ∀ gy : Nat,
        (List.length ∘ fun gy : Nat =>
          (List.range (modelWidth / s)).map (fun gx => GridEntry.mk gx gy s)) gy
          = modelWidth / s := by
      intro gy; simp
    rw [List.map_congr_left fun gy _ => this gy]
    simp [List.map_const', Nat.mul_comm]

/-! ## DetectionService state and tensor input -/

/-- Mutable fields of the `DetectionService` class that the decode path reads:
`session` (modelled as a readiness flag), the grid arrays (one entry list, see
`GridEntry`), and the cached output channel count.  `numProposals` is
`grid.length`. -/
structure DetState where
  sessionReady : Bool
  grid : List GridEntry
  channels : Nat

/-- A raw output tensor: a flat read-only numeric buffer with its length
(`Float32Array` reads are total in the model; the decode path never reads out
of bounds when the declared shape matches the grid). -/
structure RawTensor where
  data : Nat → ℚ
  length : Nat

/-- private clamp(value, min, max) = Math.max(min, Math.min(max, value)). -/
def clamp (value lo hi : ℚ) : ℚ := max lo (min hi value)

/-- private iou(a, b) from detectionService.ts lines 206-217. -/
def iou (a b : BoundingBox) : ℚ :=
  let x1 := max a.x b.x
  let y1 := max a.y b.y
  let x2 := min (a.x + a.w) (b.x + b.w)
  let y2 := min (a.y + a.h) (b.y + b.h)
  let intersection := max 0 (x2 - x1) * max 0 (y2 - y1)
  if intersection ≤ 0 then 0
  else
    let union := a.w * a.h + b.w * b.h - intersection
    if union ≤ 0 then 0 else intersection / union

/-- The `while (sorted.length)` loop of `nonMaxSuppression`: shift the head
into the result, then splice out every remaining box whose IoU with it exceeds
the threshold (splicing preserves the relative order of the survivors, hence
the `filter`). -/
def nmsLoop (iouThreshold : ℚ) : List BoundingBox → List BoundingBox
  | [] => []
  | current :: rest =>
      current ::
        nmsLoop iouThreshold
          (rest.filter (fun b => !decide (iou current b > iouThreshold)))
termination_by l => l.length
decreasing_by
  simpa using Nat.lt_succ_of_le (List.length_filter_le _ rest)

/-- `[...boxes].sort((a, b) => b.confidence - a.confidence)`: a permutation of
the input sorted by descending confidence. -/
def sortByConfidenceDesc (boxes : List BoundingBox) : List BoundingBox :=
  boxes.mergeSort (fun a b => decide (b.confidence ≤ a.confidence))

/-- private nonMaxSuppression(boxes, iouThreshold), lines 187-204. -/
def nonMaxSuppression (boxes : List BoundingBox) (iouThreshold : ℚ) :
    List BoundingBox :=
  if boxes.length ≤ 1 then boxes
  else nmsLoop iouThreshold (sortByConfidenceDesc boxes)

/-! ## processOutput (detectionService.ts lines 126-185) -/

/-- Body of the per-proposal loop of `processOutput` for index `i`; `none` is
the `continue` taken when the confidence short-circuit discards the proposal.
`σ` is the sigmoid. -/
def decodeProposal (σ : ℚ → ℚ) (st : DetState) (numChannels : Nat)
    (output : RawTensor) (scaleX scaleY imageWidth imageHeight : ℚ)
    (i : Nat) : Option BoundingBox :=
  let numProposals := st.grid.length
  let entry := st.grid.getD i ⟨0, 0, 0⟩
  let stride : ℚ := (entry.stride : ℚ)
  let gx : ℚ := (entry.gridX : ℚ)
  let gy : ℚ := (entry.gridY : ℚ)
  let xRaw := output.data (0 * numProposals + i)
  let yRaw := output.data (1 * numProposals + i)
  let wRaw := output.data (2 * numProposals + i)
  let hRaw := output.data (3 * numProposals + i)
  let objectness := σ (output.data (4 * numProposals + i))
  let classScore : ℚ :=
    if 5 < numChannels then
      (List.range' 5 (numChannels - 5)).foldl
        (fun maxClassScore c =>
          let score := σ (output.data (c * numProposals + i))
          if score > maxClassScore then score else maxClassScore) 0
    else 1
  let confidence := objectness * classScore
  if confidence < CONFIDENCE_THRESHOLD then none
  else
    let xCenter := (σ xRaw * 2 - 1/2 + gx) * stride
    let yCenter := (σ yRaw * 2 - 1/2 + gy) * stride
    let width := (σ wRaw * 2) ^ 2 * stride
    let height := (σ hRaw * 2) ^ 2 * stride
    some
      { x := clamp ((xCenter - width / 2) * scaleX) 0 imageWidth
      , y := clamp ((yCenter - height / 2) * scaleY) 0 imageHeight
      , w := clamp (width * scaleX) 1 imageWidth
      , h := clamp (height * scaleY) 1 imageHeight
      , confidence := confidence }

/-- private processOutput(output, imageWidth, imageHeight).  Returns `[]`
with a console warning when the grid is not prepared or the channel count is
below 5; otherwise decodes every proposal (the loop with `continue` is the
`filterMap`) and runs non-max suppression.

`effectiveChannels` is the source's
`numChannels = this.channels || Math.floor(output.length / numProposals)`. -/
def effectiveChannels (st : DetState) (output : RawTensor) : Nat :=
  if st.channels = 0 then output.length / st.grid.length else st.channels

def processOutput (σ : ℚ → ℚ) (st : DetState) (output : RawTensor)
    (imageWidth imageHeight : ℚ) : List BoundingBox :=
  let numProposals := st.grid.length
  if numProposals = 0 then []
  else
    let numChannels := effectiveChannels st output
    if numChannels < 5 then []
    else
      let scaleX := imageWidth / (MODEL_INPUT_WIDTH : ℚ)
      let scaleY := imageHeight / (MODEL_INPUT_HEIGHT : ℚ)
      let boxes := (List.range numProposals).filterMap
        (decodeProposal σ st numChannels output scaleX scaleY
          imageWidth imageHeight)
      nonMaxSuppression boxes NMS_THRESHOLD

/-- async detectFaces(imageSource), lines 44-86: throws when the session is
not initialized, otherwise caches the channel count from the output tensor's
declared dims (when not yet cached) and decodes.  Preprocessing and the
inference call are external capabilities; `dims` and `output` are the
inference result, `imageWidth`/`imageHeight` the source dimensions. -/
def detectFaces (σ : ℚ → ℚ) (st : DetState) (dims : List Nat)
    (output : RawTensor) (imageWidth imageHeight : ℚ) :
    Except String (List BoundingBox) :=
  if st.sessionReady = false then
    Except.error "Detection service not initialized."
  else
    let st' :=
      if st.channels = 0 ∧ 3 ≤ dims.length then
        { st with channels := dims.getD 1 0 }
      else st
    Except.ok (processOutput σ st' output imageWidth imageHeight)

/-! ## Properties of iou and nonMaxSuppression -/

/-- IoU is symmetric in its two boxes. -/
theorem iou_symm (a b : BoundingBox) : iou a b = iou b a := by
  simp only [iou]
  rw [max_comm a.x b.x, max_comm a.y b.y, min_comm (a.x + a.w) (b.x + b.w),
    min_comm (a.y + a.h) (b.y + b.h), add_comm (a.w * a.h) (b.w * b.h)]

/-- Auxiliary form of `nmsLoop_subset` with an explicit length bound. -/
theorem nmsLoop_subset_aux (thr : ℚ) :
    ∀ (n : Nat) (l : List BoundingBox), l.length ≤ n → nmsLoop thr l ⊆ l := by
  intro n
  induction n with
  | zero =>
    intro l hl
    have : l = [] := List.eq_nil_of_length_eq_zero (by omega)
    subst this
    rw [nmsLoop]
    exact fun x hx => hx
  | succ n ih =>
    intro l hl
    match l with
    | [] =>
      rw [nmsLoop]
      exact fun x hx => hx
    | c :: rest =>
      rw [nmsLoop]
      intro x hx
      rcases List.mem_cons.mp hx with h | h
      · exact h ▸ List.mem_cons_self c rest
      · have hlen : (rest.filter
            (fun b => !decide (iou c b > thr))).length ≤ n := by
          have := List.length_filter_le
            (fun b => !decide (iou c b > thr)) rest
          simp only [List.length_cons] at hl
          omega
        have hmem := ih _ hlen h
        exact List.mem_cons_of_mem c ((List.filter_sublist rest).subset hmem)

/-- Every box output by the greedy suppression loop is an input box. -/
theorem nmsLoop_subset (thr : ℚ) (l : List BoundingBox) :
    nmsLoop thr l ⊆ l :=
  nmsLoop_subset_aux thr l.length l le_rfl

/-- Auxiliary form of `nmsLoop_pairwise` with an explicit length bound. -/
theorem nmsLoop_pairwise_aux (thr : ℚ) :
    ∀ (n : Nat) (l : List BoundingBox), l.length ≤ n →
      (nmsLoop thr l).Pairwise (fun a b => iou a b ≤ thr) := by
  intro n
  induction n with
  | zero =>
    intro l hl
    have : l = [] := List.eq_nil_of_length_eq_zero (by omega)
    subst this
    rw [nmsLoop]
    exact List.Pairwise.nil
  | succ n ih =>
    intro l hl
    match l with
    | [] =>
      rw [nmsLoop]
      exact List.Pairwise.nil
    | c :: rest =>
      rw [nmsLoop]
      have hlen : (rest.filter
          (fun b => !decide (iou c b > thr))).length ≤ n := by
        have := List.length_filter_le (fun b => !decide (iou c b > thr)) rest
        simp only [List.length_cons] at hl
        omega
      refine List.pairwise_cons.mpr ⟨?_, ih _ hlen⟩
      intro b hb
      have hbf := nmsLoop_subset_aux thr n _ hlen hb
      have := (List.mem_filter.mp hbf).2
      simp only [Bool.not_eq_eq_eq_not, Bool.not_true, decide_eq_false_iff_not,
        gt_iff_lt, not_lt] at this
      exact this

/-- Any two boxes kept by the greedy loop have IoU at most the threshold. -/
theorem nmsLoop_pairwise (thr : ℚ) (l : List BoundingBox) :
    (nmsLoop thr l).Pairwise (fun a b => iou a b ≤ thr) :=
  nmsLoop_pairwise_aux thr l.length l le_rfl

/-- On a list whose boxes already pairwise satisfy the IoU bound the greedy
loop removes nothing. -/
theorem nmsLoop_eq_of_pairwise (thr : ℚ) :
    ∀ (n : Nat) (l : List BoundingBox), l.length ≤ n →
      l.Pairwise (fun a b => iou a b ≤ thr) → nmsLoop thr l = l := by
  intro n
  induction n with
  | zero =>
    intro l hl _
    have : l = [] := List.eq_nil_of_length_eq_zero (by omega)
    subst this
    rw [nmsLoop]
  | succ n ih =>
    intro l hl hp
    match l with
    | [] => rw [nmsLoop]
    | c :: rest =>
      rw [nmsLoop]
      obtain ⟨hhead, htail⟩ := List.pairwise_cons.mp hp
      have hfilter : rest.filter (fun b => !decide (iou c b > thr)) = rest := by
        refine List.filter_eq_self.mpr fun b hb => ?_
        simp only [Bool.not_eq_eq_eq_not, Bool.not_true,
          decide_eq_false_iff_not, gt_iff_lt, not_lt]
        exact hhead b hb
      rw [hfilter]
      have hlen : rest.length ≤ n := by
        simp only [List.length_cons] at hl
        omega
      rw [ih rest hlen htail]

/-- Non-max suppression only keeps input boxes. -/
theorem nonMaxSuppression_subset (boxes : List BoundingBox) (thr : ℚ) :
    nonMaxSuppression boxes thr ⊆ boxes := by
  unfold nonMaxSuppression
  split
  · exact fun x hx => hx
  · intro x hx
    have hx' := nmsLoop_subset thr _ hx
    exact (List.mergeSort_perm boxes _).mem_iff.mp hx'

/-- The pairwise IoU bound established by non-max suppression. -/
theorem nonMaxSuppression_pairwise (boxes : List BoundingBox) (thr : ℚ) :
    (nonMaxSuppression boxes thr).Pairwise (fun a b => iou a b ≤ thr) := by
  unfold nonMaxSuppression
  split
  · rename_i hlen
    match boxes with
    | [] => exact List.Pairwise.nil
    | [b] => exact List.pairwise_singleton _ b
    | a :: b :: t => simp at hlen
  · exact nmsLoop_pairwise thr _

/-- C3: for every input list of boxes, any two distinct boxes in the output of
nonMaxSuppression have pairwise intersection-over-union at most the NMS
threshold (the output is pairwise bounded for every threshold, in particular
the 0.45 used by processOutput; iou is the code's intersection-over-union,
which is 0 when the boxes do not overlap or the union is non-positive). -/
theorem nms_output_pairwise_iou_le (boxes : List BoundingBox)
    (iouThreshold : ℚ) :
    (nonMaxSuppression boxes iouThreshold).Pairwise
      (fun a b => iou a b ≤ iouThreshold ∧ iou b a ≤ iouThreshold) := by
  have h := nonMaxSuppression_pairwise boxes iouThreshold
  exact h.imp fun {a b} hab => ⟨hab, iou_symm b a ▸ hab⟩

/-- C9: nonMaxSuppression is idempotent: re-running it on its own output
yields the same set of boxes (in fact a permutation of the output). -/
theorem nms_idempotent (boxes : List BoundingBox) (iouThreshold : ℚ) :
    (nonMaxSuppression (nonMaxSuppression boxes iouThreshold) iouThreshold).Perm
      (nonMaxSuppression boxes iouThreshold) := by
  have hp := nonMaxSuppression_pairwise boxes iouThreshold
  set o := nonMaxSuppression boxes iouThreshold with ho
  rw [nonMaxSuppression]
  split
  · exact List.Perm.refl o
  · have hperm : (sortByConfidenceDesc o).Perm o :=
      List.mergeSort_perm o _
    have hp' : (sortByConfidenceDesc o).Pairwise
        (fun a b => iou a b ≤ iouThreshold) :=
      hp.perm hperm.symm (fun {x y} hxy => iou_symm y x ▸ hxy)
    rw [nmsLoop_eq_of_pairwise iouThreshold
      (sortByConfidenceDesc o).length _ le_rfl hp']
    exact hperm

/-! ## Confidence thresholding -/

/-- Every box in processOutput's result is decoded from some proposal index
(the channel count being the cached one or the one recovered from the tensor
length, exactly as the source computes it). -/
theorem processOutput_mem_decode (σ : ℚ → ℚ) (st : DetState) (out : RawTensor)
    (W H : ℚ) (b : BoundingBox) (hb : b ∈ processOutput σ st out W H) :
    ∃ i, i < st.grid.length ∧
      decodeProposal σ st (effectiveChannels st out)
        out (W / (MODEL_INPUT_WIDTH : ℚ)) (H / (MODEL_INPUT_HEIGHT : ℚ))
        W H i = some b := by
  simp only [processOutput] at hb
  split at hb
  · exact absurd hb (List.not_mem_nil b)
  · split at hb
    · exact absurd hb (List.not_mem_nil b)
    · have hb' := nonMaxSuppression_subset _ _ hb
      obtain ⟨i, hi, hdec⟩ := List.mem_filterMap.mp hb'
      exact ⟨i, List.mem_range.mp hi, hdec⟩

/-- A decoded box records as its confidence the thresholded product, so it is
never below the threshold. -/
theorem decodeProposal_confidence_ge (σ : ℚ → ℚ) (st : DetState)
    (numChannels : Nat) (out : RawTensor) (scaleX scaleY W H : ℚ) (i : Nat)
    (b : BoundingBox)
    (h : decodeProposal σ st numChannels out scaleX scaleY W H i = some b) :
    CONFIDENCE_THRESHOLD ≤ b.confidence := by
  simp only [decodeProposal] at h
  split at h <;> split at h
  · exact absurd h (by simp)
  · rename_i hc
    obtain rfl := Option.some.inj h
    exact not_lt.mp hc
  · exact absurd h (by simp)
  · rename_i hc
    obtain rfl := Option.some.inj h
    exact not_lt.mp hc

/-- C4: every proposal whose confidence (sigmoid objectness times best class
score) is strictly below CONFIDENCE_THRESHOLD is discarded; equivalently,
every box in processOutput's output carries a confidence that is at least
CONFIDENCE_THRESHOLD. -/
theorem processOutput_confidence_ge (σ : ℚ → ℚ) (st : DetState)
    (out : RawTensor) (W H : ℚ) (b : BoundingBox)
    (hb : b ∈ processOutput σ st out W H) :
    CONFIDENCE_THRESHOLD ≤ b.confidence := by
  obtain ⟨i, _, hdec⟩ := processOutput_mem_decode σ st out W H b hb
  exact decodeProposal_confidence_ge _ _ _ _ _ _ _ _ _ _ hdec

/-! ## Concrete instances used by witnesses and counterexamples -/

/-- A constant sigmoid-like stand-in (the real sigmoid attains 1/2 at 0). -/
def sigmoidHalf : ℚ → ℚ := fun _ => 1 / 2

/-- A one-proposal decoder state (stride 8, single cell), channels cached. -/
def tinyState : DetState :=
  { sessionReady := true, grid := [⟨0, 0, 8⟩], channels := 5 }

/-- The all-zeros output tensor. -/
def zeroTensor : RawTensor := { data := fun _ => 0, length := 5 }

/-- Concrete decode: on the one-proposal state with the zero tensor and a
640x640 source, the decoder emits exactly one box. -/
theorem processOutput_tiny_eval :
    processOutput sigmoidHalf tinyState zeroTensor 640 640 =
      [⟨0, 0, 8, 8, 1 / 2⟩] := by
  have h0 : List.range 1 = [0] := by decide
  norm_num [processOutput, effectiveChannels, decodeProposal,
    nonMaxSuppression, clamp, sigmoidHalf, tinyState, zeroTensor,
    MODEL_INPUT_WIDTH, MODEL_INPUT_HEIGHT, CONFIDENCE_THRESHOLD,
    NMS_THRESHOLD, h0, List.getD_cons_zero, List.filterMap_cons,
    List.filterMap_nil, min_def, max_def]

/-- Witness for C4 at a concrete input. -/
theorem processOutput_confidence_ge_witness :
    CONFIDENCE_THRESHOLD ≤ (BoundingBox.mk 0 0 8 8 (1 / 2)).confidence :=
  processOutput_confidence_ge sigmoidHalf tinyState zeroTensor 640 640 _
    (by rw [processOutput_tiny_eval]; exact List.mem_singleton.mpr rfl)

/-! ## Box bounds (C2) -/

/-- clamp produces a value in the interval when the interval is non-degenerate. -/
theorem clamp_le_bounds (v lo hi : ℚ) (h : lo ≤ hi) :
    lo ≤ clamp v lo hi ∧ clamp v lo hi ≤ hi :=
  ⟨le_max_left lo _, max_le h (min_le_left hi v)⟩

/-- Every decoded box has each coordinate individually clamped to the image:
x in [0, W], y in [0, H], w in [1, W], h in [1, H]. -/
theorem decodeProposal_bounds (σ : ℚ → ℚ) (st : DetState) (numChannels : Nat)
    (out : RawTensor) (scaleX scaleY W H : ℚ) (i : Nat) (b : BoundingBox)
    (hW : 1 ≤ W) (hH : 1 ≤ H)
    (h : decodeProposal σ st numChannels out scaleX scaleY W H i = some b) :
    0 ≤ b.x ∧ b.x ≤ W ∧ 0 ≤ b.y ∧ b.y ≤ H ∧
      1 ≤ b.w ∧ b.w ≤ W ∧ 1 ≤ b.h ∧ b.h ≤ H := by
  have h0W : (0 : ℚ) ≤ W := by linarith
  have h0H : (0 : ℚ) ≤ H := by linarith
  simp only [decodeProposal] at h
  split at h <;> split at h
  · exact absurd h (by simp)
  · obtain rfl := Option.some.inj h
    exact ⟨(clamp_le_bounds _ _ _ h0W).1, (clamp_le_bounds _ _ _ h0W).2,
      (clamp_le_bounds _ _ _ h0H).1, (clamp_le_bounds _ _ _ h0H).2,
      (clamp_le_bounds _ _ _ hW).1, (clamp_le_bounds _ _ _ hW).2,
      (clamp_le_bounds _ _ _ hH).1, (clamp_le_bounds _ _ _ hH).2⟩
  · exact absurd h (by simp)
  · obtain rfl := Option.some.inj h
    exact ⟨(clamp_le_bounds _ _ _ h0W).1, (clamp_le_bounds _ _ _ h0W).2,
      (clamp_le_bounds _ _ _ h0H).1, (clamp_le_bounds _ _ _ h0H).2,
      (clamp_le_bounds _ _ _ hW).1, (clamp_le_bounds _ _ _ hW).2,
      (clamp_le_bounds _ _ _ hH).1, (clamp_le_bounds _ _ _ hH).2⟩

/-- C2 (amended): each output box of the decoder has every coordinate clamped
into the image individually — `0 ≤ x ≤ imageWidth`, `0 ≤ y ≤ imageHeight`,
`1 ≤ w ≤ imageWidth`, `1 ≤ h ≤ imageHeight` (for a non-degenerate image).
The original claim `x + w ≤ imageWidth ∧ y + h ≤ imageHeight` is false: the
clamps are applied to `x` and `w` independently, see the counterexample. -/
theorem processOutput_box_bounds (σ : ℚ → ℚ) (st : DetState)
    (out : RawTensor) (W H : ℚ) (hW : 1 ≤ W) (hH : 1 ≤ H) (b : BoundingBox)
    (hb : b ∈ processOutput σ st out W H) :
    0 ≤ b.x ∧ b.x ≤ W ∧ 0 ≤ b.y ∧ b.y ≤ H ∧
      1 ≤ b.w ∧ b.w ≤ W ∧ 1 ≤ b.h ∧ b.h ≤ H := by
  obtain ⟨i, _, hdec⟩ := processOutput_mem_decode σ st out W H b hb
  exact decodeProposal_bounds _ _ _ _ _ _ _ _ _ _ hW hH hdec

/-- Witness for the amended C2 at a concrete input. -/
theorem processOutput_box_bounds_witness :
    0 ≤ (BoundingBox.mk 0 0 8 8 (1 / 2)).x ∧
      (BoundingBox.mk 0 0 8 8 (1 / 2)).x ≤ 640 ∧
      0 ≤ (BoundingBox.mk 0 0 8 8 (1 / 2)).y ∧
      (BoundingBox.mk 0 0 8 8 (1 / 2)).y ≤ 640 ∧
      1 ≤ (BoundingBox.mk 0 0 8 8 (1 / 2)).w ∧
      (BoundingBox.mk 0 0 8 8 (1 / 2)).w ≤ 640 ∧
      1 ≤ (BoundingBox.mk 0 0 8 8 (1 / 2)).h ∧
      (BoundingBox.mk 0 0 8 8 (1 / 2)).h ≤ 640 :=
  processOutput_box_bounds sigmoidHalf tinyState zeroTensor 640 640
    (by norm_num) (by norm_num) _
    (by rw [processOutput_tiny_eval]; exact List.mem_singleton.mpr rfl)

/-! ## C2 counterexample: an output box can extend outside the image -/

/-- Sigmoid-like stand-in hitting specific values; the real sigmoid attains
every value in (0, 1), so each of these is a value sigmoid takes. -/
def sigmoidCex : ℚ → ℚ := fun q =>
  if q = 1 then 3 / 4
  else if q = 2 then 1 / 2
  else if q = 3 then 9 / 10
  else 1 / 10

/-- The decoder state right after initialize(): the grid prepared from the
fixed 640x640 input shape and strides [8, 16, 32] (8400 proposals), channel
count cached from a 5-channel output. -/
def fullState : DetState :=
  { sessionReady := true
  , grid := prepareGrids MODEL_INPUT_WIDTH MODEL_INPUT_HEIGHT STRIDES
  , channels := 5 }

/-- A 5x8400 output tensor with one confident proposal at index 0 (the stride-8
cell (0,0)) and every other proposal below the confidence threshold. -/
def cexTensor : RawTensor :=
  { data := fun j =>
      if j = 0 then 1
      else if j = 16800 then 2
      else if j = 25200 then 2
      else if j = 33600 then 3
      else 0
  , length := 42000 }

theorem fullState_grid_length : fullState.grid.length = 8400 := by
  show (prepareGrids MODEL_INPUT_WIDTH MODEL_INPUT_HEIGHT STRIDES).length = 8400
  rw [prepareGrids_length]
  simp [STRIDES, MODEL_INPUT_WIDTH, MODEL_INPUT_HEIGHT]

theorem fullState_grid_head :
    fullState.grid.getD 0 ⟨0, 0, 0⟩ = ⟨0, 0, 8⟩ := by
  show (prepareGrids MODEL_INPUT_WIDTH MODEL_INPUT_HEIGHT STRIDES).getD 0 _ = _
  rw [prepareGrids_eq]
  have h80 : List.range 80 = 0 :: (List.range 79).map Nat.succ :=
    List.range_succ_eq_map 79
  simp only [STRIDES, MODEL_INPUT_WIDTH, MODEL_INPUT_HEIGHT, Nat.reduceDiv,
    h80, List.flatMap_cons, List.flatMap_nil, List.map_cons,
    List.cons_append, List.getD_cons_zero]

/-- Proposal 0 decodes (in a 1x1 image) to a box whose width is forced up to 1
by the lower clamp while its left edge is strictly positive. -/
theorem cex_decode_head :
    decodeProposal sigmoidCex fullState 5 cexTensor
      (1 / (MODEL_INPUT_WIDTH : ℚ)) (1 / (MODEL_INPUT_HEIGHT : ℚ)) 1 1 0 =
      some ⟨1 / 160, 0, 1, 1, 9 / 10⟩ := by
  simp only [decodeProposal, fullState_grid_length, fullState_grid_head]
  norm_num [sigmoidCex, cexTensor, clamp, CONFIDENCE_THRESHOLD,
    MODEL_INPUT_WIDTH, MODEL_INPUT_HEIGHT, min_def, max_def]

/-- Every other proposal reads objectness sigmoid 1/10 and is discarded by the
confidence threshold, whatever the scales. -/
theorem cex_decode_rest (scaleX scaleY : ℚ) (i : Nat) :
    decodeProposal sigmoidCex fullState 5 cexTensor scaleX scaleY 1 1
      (i + 1) = none := by
  have hdata : cexTensor.data (4 * fullState.grid.length + (i + 1)) = 0 := by
    rw [fullState_grid_length]
    simp only [cexTensor]
    rw [if_neg (by omega), if_neg (by omega), if_neg (by omega),
      if_neg (by omega)]
  simp only [decodeProposal, hdata]
  have hσ0 : sigmoidCex 0 = 1 / 10 := by norm_num [sigmoidCex]
  rw [hσ0, if_neg (show ¬ (5 < 5) by norm_num)]
  rw [if_pos
    (show (1 : ℚ) / 10 * 1 < CONFIDENCE_THRESHOLD by
      norm_num [CONFIDENCE_THRESHOLD])]

/-- Full decode of the counterexample tensor in a 1x1 source image. -/
theorem processOutput_cex_eval :
    processOutput sigmoidCex fullState cexTensor 1 1 =
      [⟨1 / 160, 0, 1, 1, 9 / 10⟩] := by
  have heff : effectiveChannels fullState cexTensor = 5 := by
    simp [effectiveChannels, fullState]
  simp only [processOutput, fullState_grid_length, heff]
  rw [if_neg (by norm_num), if_neg (by norm_num)]
  rw [show (8400 : Nat) = 8399 + 1 from by norm_num, List.range_succ_eq_map]
  rw [List.filterMap_cons, cex_decode_head]
  have hrest : List.filterMap
      (decodeProposal sigmoidCex fullState 5 cexTensor
        (1 / (MODEL_INPUT_WIDTH : ℚ)) (1 / (MODEL_INPUT_HEIGHT : ℚ)) 1 1)
      ((List.range 8399).map Nat.succ) = [] := by
    refine List.filterMap_eq_nil_iff.mpr ?_
    intro a ha
    obtain ⟨i, _, rfl⟩ := List.mem_map.mp ha
    exact cex_decode_rest _ _ i
  rw [hrest]
  simp [nonMaxSuppression]

/-- C2 is false as stated: with a sigmoid-like σ (range in (0,1)), the
initialized 640x640 grid state, a concrete tensor and a 1x1 source image, the
decoder returns the box (x, y, w, h) = (1/160, 0, 1, 1), and
x + w = 1 + 1/160 > imageWidth: the lower clamp of w to 1 and the clamp of x
to [0, imageWidth] are applied independently, so the box extends outside the
image. -/
theorem processOutput_box_outside_image :
    ¬ (∀ (σ : ℚ → ℚ), SigmoidLike σ →
        ∀ (st : DetState) (out : RawTensor) (W H : ℚ) (b : BoundingBox),
          b ∈ processOutput σ st out W H →
          0 ≤ b.x ∧ 0 ≤ b.y ∧ b.x + b.w ≤ W ∧ b.y + b.h ≤ H) := by
  intro hcl
  have hσ : SigmoidLike sigmoidCex := by
    intro q
    simp only [sigmoidCex]
    split_ifs <;> norm_num
  have hmem : (⟨1 / 160, 0, 1, 1, 9 / 10⟩ : BoundingBox) ∈
      processOutput sigmoidCex fullState cexTensor 1 1 := by
    rw [processOutput_cex_eval]
    exact List.mem_singleton.mpr rfl
  have h := hcl sigmoidCex hσ fullState cexTensor 1 1 _ hmem
  have hx : (1 : ℚ) / 160 + 1 ≤ 1 := h.2.2.1
  norm_num at hx

/-! ## C5: grid enumeration order and length -/

/-- C5: for every input width, height and ordered stride list, prepareGrids
emits, for each stride s in order, one proposal per cell for y from 0 to
floor(H/s)-1 and x from 0 to floor(W/s)-1 in raster order (x innermost), and
its total length is the sum over strides of floor(W/s)*floor(H/s). -/
theorem prepareGrids_raster_and_length (modelWidth modelHeight : Nat)
    (strides : List Nat) :
    prepareGrids modelWidth modelHeight strides =
      strides.flatMap (fun s =>
        (List.range (modelHeight / s)).flatMap (fun gy =>
          (List.range (modelWidth / s)).map (fun gx => ⟨gx, gy, s⟩))) ∧
    (prepareGrids modelWidth modelHeight strides).length =
      (strides.map (fun s => (modelWidth / s) * (modelHeight / s))).sum :=
  ⟨prepareGrids_eq modelWidth modelHeight strides,
    prepareGrids_length modelWidth modelHeight strides⟩

/-! ## C6: decode formulas -/

/-- Characterization of the running-maximum fold used for the class score:
it dominates the start value and every scanned value, and it is the start
value or one of the scanned values. -/
theorem foldl_classScore_aux (g : Nat → ℚ) :
    ∀ (l : List Nat) (a : ℚ),
      a ≤ l.foldl (fun m c => if g c > m then g c else m) a ∧
      (∀ c ∈ l, g c ≤ l.foldl (fun m c => if g c > m then g c else m) a) ∧
      (l.foldl (fun m c => if g c > m then g c else m) a = a ∨
        ∃ c ∈ l, l.foldl (fun m c => if g c > m then g c else m) a = g c) := by
  intro l
  induction l with
  | nil =>
    intro a
    refine ⟨le_rfl, ?_, Or.inl rfl⟩
    intro c hc
    exact absurd hc (List.not_mem_nil c)
  | cons c t ih =>
    intro a
    simp only [List.foldl_cons]
    obtain ⟨ih1, ih2, ih3⟩ := ih (if g c > a then g c else a)
    have ha : a ≤ if g c > a then g c else a := by
      split_ifs with h
      · exact le_of_lt h
      · exact le_rfl
    have hc : g c ≤ if g c > a then g c else a := by
      split_ifs with h
      · exact le_rfl
      · exact not_lt.mp h
    refine ⟨le_trans ha ih1, ?_, ?_⟩
    · intro d hd
      rcases List.mem_cons.mp hd with rfl | hd
      · exact le_trans hc ih1
      · exact ih2 d hd
    · rcases ih3 with h | ⟨d, hd, he⟩
      · rw [h]
        split_ifs with hgt
        · exact Or.inr ⟨c, List.mem_cons_self c t, rfl⟩
        · exact Or.inl rfl
      · exact Or.inr ⟨d, List.mem_cons_of_mem c hd, he⟩

/-- C6: every box emitted for a surviving proposal i with cell (gx, gy) and
stride s is exactly the clamped image-space scaling of the anchor-free decode
xCenter = (σ(raw0)*2 - 0.5 + gx)*s, yCenter = (σ(raw1)*2 - 0.5 + gy)*s,
width = (σ(raw2)*2)^2*s, height = (σ(raw3)*2)^2*s; its confidence is
σ(raw4) times a class score that is the maximum over channels c in
[5, numChannels) of σ(raw c) when numChannels > 5, and 1 otherwise
(σ is the sigmoid, positive everywhere). -/
theorem decodeProposal_formulas (σ : ℚ → ℚ) (hσ : ∀ q, 0 < σ q)
    (st : DetState) (numChannels : Nat) (out : RawTensor)
    (scaleX scaleY imageWidth imageHeight : ℚ) (i : Nat) (b : BoundingBox)
    (hb : decodeProposal σ st numChannels out scaleX scaleY
        imageWidth imageHeight i = some b) :
    ∃ classScore : ℚ,
      ((5 < numChannels →
        (∃ c, 5 ≤ c ∧ c < numChannels ∧
          classScore = σ (out.data (c * st.grid.length + i))) ∧
        (∀ c, 5 ≤ c → c < numChannels →
          σ (out.data (c * st.grid.length + i)) ≤ classScore)) ∧
       (¬ 5 < numChannels → classScore = 1)) ∧
      b.confidence = σ (out.data (4 * st.grid.length + i)) * classScore ∧
      b.x = clamp
        (((σ (out.data (0 * st.grid.length + i)) * 2 - 1 / 2 +
            ((st.grid.getD i ⟨0, 0, 0⟩).gridX : ℚ)) *
            ((st.grid.getD i ⟨0, 0, 0⟩).stride : ℚ) -
          (σ (out.data (2 * st.grid.length + i)) * 2) ^ 2 *
            ((st.grid.getD i ⟨0, 0, 0⟩).stride : ℚ) / 2) * scaleX)
        0 imageWidth ∧
      b.y = clamp
        (((σ (out.data (1 * st.grid.length + i)) * 2 - 1 / 2 +
            ((st.grid.getD i ⟨0, 0, 0⟩).gridY : ℚ)) *
            ((st.grid.getD i ⟨0, 0, 0⟩).stride : ℚ) -
          (σ (out.data (3 * st.grid.length + i)) * 2) ^ 2 *
            ((st.grid.getD i ⟨0, 0, 0⟩).stride : ℚ) / 2) * scaleY)
        0 imageHeight ∧
      b.w = clamp
        ((σ (out.data (2 * st.grid.length + i)) * 2) ^ 2 *
          ((st.grid.getD i ⟨0, 0, 0⟩).stride : ℚ) * scaleX)
        1 imageWidth ∧
      b.h = clamp
        ((σ (out.data (3 * st.grid.length + i)) * 2) ^ 2 *
          ((st.grid.getD i ⟨0, 0, 0⟩).stride : ℚ) * scaleY)
        1 imageHeight := by
  simp only [decodeProposal] at hb
  split at hb <;> split at hb
  · exact absurd hb (by simp)
  · rename_i hnc _
    obtain rfl := Option.some.inj hb
    refine ⟨(List.range' 5 (numChannels - 5)).foldl
      (fun m c => if σ (out.data (c * st.grid.length + i)) > m
        then σ (out.data (c * st.grid.length + i)) else m) 0,
      ⟨fun _ => ?_, fun h => absurd hnc h⟩, rfl, rfl, rfl, rfl, rfl⟩
    obtain ⟨_, haux2, haux3⟩ := foldl_classScore_aux
      (fun c => σ (out.data (c * st.grid.length + i)))
      (List.range' 5 (numChannels - 5)) 0
    have hmem5 : 5 ∈ List.range' 5 (numChannels - 5) :=
      List.mem_range'_1.mpr ⟨le_rfl, by omega⟩
    constructor
    · rcases haux3 with h0 | ⟨c, hcmem, hce⟩
      · exfalso
        have := haux2 5 hmem5
        rw [h0] at this
        exact absurd (lt_of_lt_of_le (hσ _) this) (lt_irrefl 0)
      · obtain ⟨hc1, hc2⟩ := List.mem_range'_1.mp hcmem
        exact ⟨c, hc1, by omega, hce⟩
    · intro c hc1 hc2
      exact haux2 c (List.mem_range'_1.mpr ⟨hc1, by omega⟩)
  · exact absurd hb (by simp)
  · rename_i hnc _
    obtain rfl := Option.some.inj hb
    exact ⟨1, ⟨fun h => absurd h hnc, fun _ => rfl⟩, rfl, rfl, rfl, rfl, rfl⟩

/-- Concrete decode used by the C6 witness. -/
theorem decodeProposal_tiny_eval :
    decodeProposal sigmoidHalf tinyState 5 zeroTensor 1 1 640 640 0 =
      some ⟨0, 0, 8, 8, 1 / 2⟩ := by
  norm_num [decodeProposal, tinyState, sigmoidHalf, zeroTensor, clamp,
    CONFIDENCE_THRESHOLD, List.getD_cons_zero, min_def, max_def]

/-- Witness for C6 at a concrete input. -/
theorem decodeProposal_formulas_witness :
    ∃ classScore : ℚ,
      ((5 < 5 →
        (∃ c, 5 ≤ c ∧ c < 5 ∧
          classScore = sigmoidHalf
            (zeroTensor.data (c * tinyState.grid.length + 0))) ∧
        (∀ c, 5 ≤ c → c < 5 →
          sigmoidHalf (zeroTensor.data (c * tinyState.grid.length + 0)) ≤
            classScore)) ∧
       (¬ 5 < 5 → classScore = 1)) ∧
      (BoundingBox.mk 0 0 8 8 (1 / 2)).confidence =
        sigmoidHalf (zeroTensor.data (4 * tinyState.grid.length + 0)) *
          classScore ∧
      (BoundingBox.mk 0 0 8 8 (1 / 2)).x = clamp
        (((sigmoidHalf (zeroTensor.data (0 * tinyState.grid.length + 0)) * 2 -
            1 / 2 + ((tinyState.grid.getD 0 ⟨0, 0, 0⟩).gridX : ℚ)) *
            ((tinyState.grid.getD 0 ⟨0, 0, 0⟩).stride : ℚ) -
          (sigmoidHalf (zeroTensor.data (2 * tinyState.grid.length + 0)) * 2)
              ^ 2 * ((tinyState.grid.getD 0 ⟨0, 0, 0⟩).stride : ℚ) / 2) * 1)
        0 640 ∧
      (BoundingBox.mk 0 0 8 8 (1 / 2)).y = clamp
        (((sigmoidHalf (zeroTensor.data (1 * tinyState.grid.length + 0)) * 2 -
            1 / 2 + ((tinyState.grid.getD 0 ⟨0, 0, 0⟩).gridY : ℚ)) *
            ((tinyState.grid.getD 0 ⟨0, 0, 0⟩).stride : ℚ) -
          (sigmoidHalf (zeroTensor.data (3 * tinyState.grid.length + 0)) * 2)
              ^ 2 * ((tinyState.grid.getD 0 ⟨0, 0, 0⟩).stride : ℚ) / 2) * 1)
        0 640 ∧
      (BoundingBox.mk 0 0 8 8 (1 / 2)).w = clamp
        ((sigmoidHalf (zeroTensor.data (2 * tinyState.grid.length + 0)) * 2)
            ^ 2 * ((tinyState.grid.getD 0 ⟨0, 0, 0⟩).stride : ℚ) * 1)
        1 640 ∧
      (BoundingBox.mk 0 0 8 8 (1 / 2)).h = clamp
        ((sigmoidHalf (zeroTensor.data (3 * tinyState.grid.length + 0)) * 2)
            ^ 2 * ((tinyState.grid.getD 0 ⟨0, 0, 0⟩).stride : ℚ) * 1)
        1 640 :=
  decodeProposal_formulas sigmoidHalf (fun q => by norm_num [sigmoidHalf])
    tinyState 5 zeroTensor 1 1 640 640 0 _ decodeProposal_tiny_eval

/-! ## C8: decoder behavior on shape mismatch and before initialization -/

/-- A decoder state with an initialized session but a cached channel count of
4 (a 4-channel output tensor). -/
def fourChanState : DetState :=
  { sessionReady := true, grid := [⟨0, 0, 8⟩], channels := 4 }

/-- The state before initialize() resolves: no session, no grid. -/
def offState : DetState := { sessionReady := false, grid := [], channels := 0 }

/-- Concrete evaluation: with 4 channels the pipeline returns the NORMAL
result `Except.ok []` (a console warning, not an error). -/
theorem detectFaces_fourChan_eval :
    detectFaces sigmoidHalf fourChanState [] zeroTensor 640 640 =
      Except.ok [] := by
  simp [detectFaces, fourChanState, processOutput, effectiveChannels]

/-- C8 is false as stated: on an initialized service whose cached channel
count is 4 (< 5), detectFaces returns the normal result Except.ok [] rather
than failing with a shape-mismatch error. -/
theorem shape_mismatch_not_an_error :
    ¬ (∀ (σ : ℚ → ℚ) (st : DetState) (dims : List Nat) (out : RawTensor)
        (W H : ℚ), st.channels ≠ 0 → st.channels < 5 →
        ∃ e, detectFaces σ st dims out W H = Except.error e) := by
  intro hcl
  obtain ⟨e, he⟩ := hcl sigmoidHalf fourChanState [] zeroTensor 640 640
    (by norm_num [fourChanState]) (by norm_num [fourChanState])
  rw [detectFaces_fourChan_eval] at he
  exact Except.noConfusion he

/-- C8 (amended): when the effective channel count is below 5 the decoder
warns and returns an empty box list as a normal result (it does not fail);
the not-ready error is raised exactly when detectFaces runs before the
session is initialized. -/
theorem decoder_shape_and_ready_behavior :
    (∀ (σ : ℚ → ℚ) (st : DetState) (out : RawTensor) (W H : ℚ),
      st.grid.length ≠ 0 → effectiveChannels st out < 5 →
      processOutput σ st out W H = []) ∧
    (∀ (σ : ℚ → ℚ) (st : DetState) (dims : List Nat) (out : RawTensor)
        (W H : ℚ), st.sessionReady = false →
      detectFaces σ st dims out W H =
        Except.error "Detection service not initialized.") := by
  constructor
  · intro σ st out W H hnp hch
    simp only [processOutput]
    rw [if_neg hnp, if_pos hch]
  · intro σ st dims out W H h
    simp [detectFaces, h]

/-- Witness for the amended C8 at concrete inputs. -/
theorem decoder_shape_and_ready_behavior_witness :
    processOutput sigmoidHalf fourChanState zeroTensor 640 640 = [] ∧
    detectFaces sigmoidHalf offState [] zeroTensor 640 640 =
      Except.error "Detection service not initialized." :=
  ⟨decoder_shape_and_ready_behavior.1 sigmoidHalf fourChanState zeroTensor
      640 640 (by simp [fourChanState])
      (by norm_num [effectiveChannels, fourChanState]),
    decoder_shape_and_ready_behavior.2 sigmoidHalf offState [] zeroTensor
      640 640 rfl⟩

/-! ## ImageEncoder: cropResizeToBlob (src/frontend/hooks/useDraggable.ts)

The canvas work (square crop centered on the box, resize to targetSize, the
actual pixel encoding) is an external browser capability; `encodeJpeg q` /
`encodeWebp q` give the byte size canvasToBlob produces at quality `q`.
`encodeWebp = none` models the WebP conversion throwing (the catch logs a
warning and keeps the JPEG result).  A JPEG encode failure propagates as an
exception out of the whole call, returning no blob at all. -/

/-- The termination measure of the quality-stepping loop strictly decreases
while the loop condition holds. -/
theorem qualityMeasure_lt {q minQ step : ℚ} (hq : minQ < q) (hstep : 0 < step) :
    ⌈(max minQ (q - step) - minQ) / step⌉₊ < ⌈(q - minQ) / step⌉₊ := by
  have hpos : 0 < ⌈(q - minQ) / step⌉₊ :=
    Nat.ceil_pos.mpr (div_pos (by linarith) hstep)
  rcases le_or_lt (q - step) minQ with h | h
  · have hmax : max minQ (q - step) = minQ := max_eq_left h
    rw [hmax, sub_self, zero_div, Nat.ceil_zero]
    exact hpos
  · have hmax : max minQ (q - step) = q - step := max_eq_right h.le
    have hstep' : step ≠ 0 := ne_of_gt hstep
    have key : (q - step - minQ) / step = (q - minQ) / step - 1 := by
      field_simp
      ring
    rw [hmax, key]
    have hcast : ((⌈(q - minQ) / step⌉₊ - 1 : ℕ) : ℚ) =
        (⌈(q - minQ) / step⌉₊ : ℚ) - 1 := by
      rw [Nat.cast_sub (by omega)]
      norm_num
    have h1 : (q - minQ) / step - 1 ≤ ((⌈(q - minQ) / step⌉₊ - 1 : ℕ) : ℚ) := by
      rw [hcast]
      have := Nat.le_ceil ((q - minQ) / step)
      linarith
    have h2 := Nat.ceil_le.mpr h1
    omega

/-- The quality-stepping while loop of cropResizeToBlob:
`while (blob.size > maxBytes && quality > minQuality) { quality =
Math.max(minQuality, quality - qualityStep); blob = await canvasToBlob(...) }`.
Returns the final size and the number of encode attempts the loop makes.
The loop only terminates when the step is positive (`hstep`); the source's
defaults are 0.08 (JPEG) and 0.12 (WebP). -/
def qualityLoop (encode : ℚ → Nat) (maxBytes : Nat) (step minQuality : ℚ)
    (hstep : 0 < step) (quality : ℚ) (size : Nat) : Nat × Nat :=
  if h : maxBytes < size ∧ minQuality < quality then
    let quality' := max minQuality (quality - step)
    let r := qualityLoop encode maxBytes step minQuality hstep quality'
      (encode quality')
    (r.1, r.2 + 1)
  else (size, 0)
termination_by ⌈(quality - minQuality) / step⌉₊
decreasing_by exact qualityMeasure_lt h.2 hstep

/-- The loop makes at most ⌈(quality - minQuality)/step⌉ encode attempts. -/
theorem qualityLoop_attempts_le (encode : ℚ → Nat) (maxBytes : Nat)
    (step minQuality : ℚ) (hstep : 0 < step) :
    ∀ (n : Nat) (q : ℚ) (size : Nat), ⌈(q - minQuality) / step⌉₊ ≤ n →
      (qualityLoop encode maxBytes step minQuality hstep q size).2 ≤
        ⌈(q - minQuality) / step⌉₊ := by
  intro n
  induction n with
  | zero =>
    intro q size hn
    rw [qualityLoop]
    split
    · rename_i h
      have := qualityMeasure_lt h.2 hstep
      omega
    · simp
  | succ n ih =>
    intro q size hn
    rw [qualityLoop]
    split
    · rename_i h
      have hlt := qualityMeasure_lt h.2 hstep
      have hih := ih (max minQuality (q - step))
        (encode (max minQuality (q - step))) (by omega)
      show (qualityLoop encode maxBytes step minQuality hstep
        (max minQuality (q - step))
        (encode (max minQuality (q - step)))).2 + 1 ≤
        ⌈(q - minQuality) / step⌉₊
      omega
    · simp

/-- The loop's final size is its input size or some encode attempt's size. -/
theorem qualityLoop_size_origin (encode : ℚ → Nat) (maxBytes : Nat)
    (step minQuality : ℚ) (hstep : 0 < step) :
    ∀ (n : Nat) (q : ℚ) (size : Nat), ⌈(q - minQuality) / step⌉₊ ≤ n →
      (qualityLoop encode maxBytes step minQuality hstep q size).1 = size ∨
        ∃ q', (qualityLoop encode maxBytes step minQuality hstep q size).1 =
          encode q' := by
  intro n
  induction n with
  | zero =>
    intro q size hn
    rw [qualityLoop]
    split
    · rename_i h
      have := qualityMeasure_lt h.2 hstep
      omega
    · exact Or.inl rfl
  | succ n ih =>
    intro q size hn
    rw [qualityLoop]
    split
    · rename_i h
      have hlt := qualityMeasure_lt h.2 hstep
      rcases ih (max minQuality (q - step))
          (encode (max minQuality (q - step))) (by omega) with h1 | ⟨q', h2⟩
      · exact Or.inr ⟨max minQuality (q - step), h1⟩
      · exact Or.inr ⟨q', h2⟩
    · exact Or.inl rfl

/-- The named options of cropResizeToBlob. -/
structure EncodeOpts where
  targetSize : Nat
  maxBytes : Nat
  qualityStart : ℚ
  qualityStep : ℚ
  minQuality : ℚ
  webpFallback : Bool

/-- The defaults: targetSize 128, maxBytes 300*1024, qualityStart 0.9,
qualityStep 0.08, minQuality 0.25, webpFallback true. -/
def defaultEncodeOpts : EncodeOpts :=
  { targetSize := 128, maxBytes := 300 * 1024, qualityStart := 9 / 10
  , qualityStep := 8 / 100, minQuality := 25 / 100, webpFallback := true }

/-- The record cropResizeToBlob returns (the opaque blob is represented by its
size, which is all the budget contract concerns). -/
structure EncodedImage where
  sizeBytes : Nat
  format : String
  width : Nat
  height : Nat
deriving DecidableEq

/-- Blob selection: the initial JPEG encode at qualityStart, the JPEG quality
loop, then the WebP fallback block (start 0.9, step 0.12, floor 0.25) which is
adopted only when it meets the budget. -/
def chooseBlob (encodeJpeg : ℚ → Nat) (encodeWebp : Option (ℚ → Nat))
    (opts : EncodeOpts) (hstep : 0 < opts.qualityStep) : Nat × String :=
  let firstSize := encodeJpeg opts.qualityStart
  let jpegSize := (qualityLoop encodeJpeg opts.maxBytes opts.qualityStep
    opts.minQuality hstep opts.qualityStart firstSize).1
  if opts.maxBytes < jpegSize ∧ opts.webpFallback then
    match encodeWebp with
    | none => (jpegSize, "image/jpeg")
    | some encW =>
        let firstW := encW (9 / 10)
        let webpSize := (qualityLoop encW opts.maxBytes (12 / 100) (25 / 100)
          (by norm_num) (9 / 10) firstW).1
        if webpSize ≤ opts.maxBytes then (webpSize, "image/webp")
        else (jpegSize, "image/jpeg")
  else (jpegSize, "image/jpeg")

/-- cropResizeToBlob: choose a blob by the quality search, then enforce the
byte budget — throw the size-exceeded error if the chosen blob is over budget,
else return the record with the blob's size and format. -/
def cropResizeToBlob (encodeJpeg : ℚ → Nat) (encodeWebp : Option (ℚ → Nat))
    (opts : EncodeOpts) (hstep : 0 < opts.qualityStep) :
    Except String EncodedImage :=
  let chosen := chooseBlob encodeJpeg encodeWebp opts hstep
  if opts.maxBytes < chosen.1 then
    Except.error "Unable to compress under budget"
  else
    Except.ok { sizeBytes := chosen.1, format := chosen.2
              , width := opts.targetSize, height := opts.targetSize }

/-- When every encode attempt of both formats is over budget, the chosen blob
is over budget too. -/
theorem chooseBlob_over (encodeJpeg : ℚ → Nat) (encodeWebp : Option (ℚ → Nat))
    (opts : EncodeOpts) (hstep : 0 < opts.qualityStep)
    (hj : ∀ q, opts.maxBytes < encodeJpeg q)
    (hw : ∀ f, encodeWebp = some f → ∀ q, opts.maxBytes < f q) :
    opts.maxBytes < (chooseBlob encodeJpeg encodeWebp opts hstep).1 := by
  have hjpeg : opts.maxBytes < (qualityLoop encodeJpeg opts.maxBytes
      opts.qualityStep opts.minQuality hstep opts.qualityStart
      (encodeJpeg opts.qualityStart)).1 := by
    rcases qualityLoop_size_origin encodeJpeg opts.maxBytes opts.qualityStep
        opts.minQuality hstep _ opts.qualityStart
        (encodeJpeg opts.qualityStart) le_rfl with h | ⟨q', h⟩
    · rw [h]; exact hj _
    · rw [h]; exact hj _
  cases hew : encodeWebp with
  | none =>
    simp only [chooseBlob, hew]
    split
    · exact hjpeg
    · exact hjpeg
  | some encW =>
    have hwebp : opts.maxBytes < (qualityLoop encW opts.maxBytes (12 / 100)
        (25 / 100) (by norm_num) (9 / 10) (encW (9 / 10))).1 := by
      rcases qualityLoop_size_origin encW opts.maxBytes (12 / 100) (25 / 100)
          (by norm_num) _ (9 / 10) (encW (9 / 10)) le_rfl with h | ⟨q', h⟩
      · rw [h]; exact hw encW hew _
      · rw [h]; exact hw encW hew _
    simp only [chooseBlob, hew]
    split
    · split
      · rename_i hle
        exact absurd hle (not_le.mpr hwebp)
      · exact hjpeg
    · exact hjpeg

/-- C1: cropResizeToBlob never silently exceeds the byte budget: every normal
return satisfies sizeBytes ≤ maxBytes, and when no JPEG attempt and no WebP
attempt meets the budget the call fails with the size-exceeded error. -/
theorem cropResizeToBlob_respects_budget (encodeJpeg : ℚ → Nat)
    (encodeWebp : Option (ℚ → Nat)) (opts : EncodeOpts)
    (hstep : 0 < opts.qualityStep) :
    (∀ r, cropResizeToBlob encodeJpeg encodeWebp opts hstep = Except.ok r →
      r.sizeBytes ≤ opts.maxBytes) ∧
    ((∀ q, opts.maxBytes < encodeJpeg q) →
      (∀ f, encodeWebp = some f → ∀ q, opts.maxBytes < f q) →
      cropResizeToBlob encodeJpeg encodeWebp opts hstep =
        Except.error "Unable to compress under budget") := by
  constructor
  · intro r hr
    simp only [cropResizeToBlob] at hr
    split at hr
    · exact absurd hr (by simp)
    · rename_i hle
      obtain rfl := Except.ok.inj hr
      exact not_lt.mp hle
  · intro hj hw
    simp only [cropResizeToBlob]
    rw [if_pos (chooseBlob_over encodeJpeg encodeWebp opts hstep hj hw)]

/-- Concrete encoder evaluation used by the C1 witness: a 100-byte JPEG is
immediately under budget. -/
theorem cropResizeToBlob_const_eval :
    cropResizeToBlob (fun _ => 100) none defaultEncodeOpts
      (by norm_num [defaultEncodeOpts]) =
      Except.ok ⟨100, "image/jpeg", 128, 128⟩ := by
  simp only [cropResizeToBlob, chooseBlob, defaultEncodeOpts]
  rw [qualityLoop]
  norm_num

/-- Witness for C1 at a concrete input. -/
theorem cropResizeToBlob_respects_budget_witness :
    EncodedImage.sizeBytes ⟨100, "image/jpeg", 128, 128⟩ ≤
      defaultEncodeOpts.maxBytes :=
  (cropResizeToBlob_respects_budget (fun _ => 100) none defaultEncodeOpts
    (by norm_num [defaultEncodeOpts])).1 _ cropResizeToBlob_const_eval

/-- C10: the quality search terminates with a bounded number of attempts:
counting the initial encode, the JPEG search makes at most
1 + ⌈(qualityStart - minQuality)/qualityStep⌉ encode attempts, and the WebP
fallback loop (fixed start 0.9, step 0.12, floor 0.25) makes at most
⌈(0.9 - 0.25)/0.12⌉ = 6 attempts. -/
theorem qualityLoop_terminates_bounded (encode : ℚ → Nat) (maxBytes : Nat)
    (step minQuality qualityStart : ℚ) (hstep : 0 < step)
    (hstart : minQuality ≤ qualityStart) :
    1 + (qualityLoop encode maxBytes step minQuality hstep qualityStart
        (encode qualityStart)).2 ≤
      1 + ⌈(qualityStart - minQuality) / step⌉₊ ∧
    (∀ (encW : ℚ → Nat) (maxB size : Nat),
      (qualityLoop encW maxB (12 / 100) (25 / 100) (by norm_num) (9 / 10)
          size).2 ≤ 6) := by
  constructor
  · have := qualityLoop_attempts_le encode maxBytes step minQuality hstep _
      qualityStart (encode qualityStart) le_rfl
    omega
  · intro encW maxB size
    have h := qualityLoop_attempts_le encW maxB (12 / 100) (25 / 100)
      (by norm_num) _ (9 / 10) size le_rfl
    have hceil : ⌈((9 : ℚ) / 10 - 25 / 100) / (12 / 100)⌉₊ = 6 := by
      rw [Nat.ceil_eq_iff (by norm_num)]
      norm_num
    omega

/-- Witness for C10 at the source's JPEG defaults. -/
theorem qualityLoop_terminates_bounded_witness :
    1 + (qualityLoop (fun _ => 0) (300 * 1024) (8 / 100) (25 / 100)
        (by norm_num) (9 / 10) ((fun _ => (0 : Nat)) ((9 : ℚ) / 10))).2 ≤
      1 + ⌈((9 : ℚ) / 10 - 25 / 100) / (8 / 100)⌉₊ ∧
    (∀ (encW : ℚ → Nat) (maxB size : Nat),
      (qualityLoop encW maxB (12 / 100) (25 / 100) (by norm_num) (9 / 10)
          size).2 ≤ 6) :=
  qualityLoop_terminates_bounded (fun _ => 0) (300 * 1024) (8 / 100)
    (25 / 100) (9 / 10) (by norm_num) (by norm_num)

/-! ## CaptureOrchestrator: captureAndProcess (src/App.tsx lines 81-175)

The cycle is an async function; in the single cooperative timeline each
awaited external call either yields a value or throws.  The environment below
injects the outcome of every external step: the chosen (largest) video
element, the createImageBitmap snapshot, the detectFaces call, each per-face
cropResizeToBlob (none = threw, caught per face), and the analyzeFaces upload.
React state setters become record updates; `isUploadingRef` is the
`isUploading` field. -/

/-- The AppStatus enum of src/types.ts. -/
inductive AppStatus
  | Idle
  | Detecting
  | Uploading
  | Error
  | Initializing
deriving DecidableEq

/-- The video element the cycle reads: its readyState. -/
structure VideoInfo where
  readyState : Nat

/-- The analyzeFaces response fields the cycle consumes. -/
structure AnalysisResult where
  top3_aggregate : List (String × ℚ)
  gemini_feedback : Option String

/-- Injected outcomes of one cycle's external steps. -/
structure CycleEnv where
  video : Option VideoInfo
  snapshot : Except String Unit
  detect : Except String (List BoundingBox)
  encode : BoundingBox → Option Unit
  upload : Except String AnalysisResult
  now : Nat

/-- The orchestrator state the cycle reads and writes. -/
structure AppState where
  isUploading : Bool
  isStarting : Bool
  status : AppStatus
  error : Option String
  emotions : Option (List (String × ℚ))
  lastUpload : Option Nat
  messages : List String

/-- The catch block of captureAndProcess: record the error, clear emotions,
enter Error, clear isStarting. -/
def catchCycle (st : AppState) (e : String) : AppState :=
  { st with
    error := some e,
    emotions := none,
    status := AppStatus.Error,
    isStarting := false }

/-- The try block of captureAndProcess, entered with the guard already set;
every thrown external error lands in `catchCycle`.  The early returns set the
guard to false themselves (the finally clause then sets it again). -/
def cycleBody (env : CycleEnv) (st : AppState) : AppState :=
  match env.video with
  | none => { st with isUploading := false }
  | some v =>
    if v.readyState < 2 then { st with isUploading := false }
    else
      match env.snapshot with
      | Except.error e => catchCycle st e
      | Except.ok _ =>
        let st1 := { st with status := AppStatus.Detecting }
        match env.detect with
        | Except.error e => catchCycle st1 e
        | Except.ok bboxes =>
          if bboxes.length = 0 then
            { st1 with status := AppStatus.Idle, isUploading := false }
          else
            let sorted := (bboxes.mergeSort (fun a b =>
              decide (b.confidence * (b.w * b.h) ≤
                a.confidence * (a.w * a.h)))).take 8
            let processed := sorted.filter (fun bb => (env.encode bb).isSome)
            if processed.length = 0 then
              { st1 with status := AppStatus.Idle, isUploading := false }
            else
              let st2 := { st1 with status := AppStatus.Uploading }
              match env.upload with
              | Except.error e => catchCycle st2 e
              | Except.ok result =>
                { st2 with
                  emotions := some result.top3_aggregate,
                  lastUpload := some env.now,
                  messages := st2.messages ++
                    [result.gemini_feedback.getD "No feedback returned."],
                  status := AppStatus.Idle,
                  isStarting := false }

/-- captureAndProcess: skip the cycle entirely when the guard is set;
otherwise clear the error, set the guard, run the try/catch body, and the
finally clause releases the guard on every exit path. -/
def captureAndProcess (env : CycleEnv) (st : AppState) : AppState :=
  if st.isUploading then st
  else
    let st0 := { st with error := none, isUploading := true }
    let st1 := cycleBody env st0
    { st1 with isUploading := false }

/-- C7: the in-flight guard is false before and false after every cycle, on
every exit path (busy-skip aside, which requires it set), and it stays false
across any sequence of cycles with arbitrary injected outcomes — a failed
cycle never leaves the guard permanently set. -/
theorem captureAndProcess_guard_released (st : AppState)
    (h : st.isUploading = false) :
    (∀ env, (captureAndProcess env st).isUploading = false) ∧
    (∀ envs : List CycleEnv,
      (envs.foldl (fun s e => captureAndProcess e s) st).isUploading =
        false) := by
  have single : ∀ (s : AppState), s.isUploading = false →
      ∀ env, (captureAndProcess env s).isUploading = false := by
    intro s hs env
    simp only [captureAndProcess, hs]
    rw [if_neg (by simp)]
  have iter : ∀ (envs : List CycleEnv) (s : AppState), s.isUploading = false →
      (envs.foldl (fun s e => captureAndProcess e s) s).isUploading =
        false := by
    intro envs
    induction envs with
    | nil => intro s hs; exact hs
    | cons e t ih =>
      intro s hs
      rw [List.foldl_cons]
      exact ih _ (single s hs e)
  exact ⟨single st h, fun envs => iter envs st h⟩

/-- An idle orchestrator state. -/
def idleState : AppState :=
  { isUploading := false, isStarting := false, status := AppStatus.Idle
  , error := none, emotions := none, lastUpload := none, messages := [] }

/-- A cycle environment in which detection and upload both fail. -/
def failEnv : CycleEnv :=
  { video := some ⟨4⟩, snapshot := Except.ok ()
  , detect := Except.error "shape mismatch"
  , encode := fun _ => none
  , upload := Except.error "network down"
  , now := 0 }

/-- Witness for C7: one failing cycle and 100 consecutive failing cycles from
the idle state leave the guard false. -/
theorem captureAndProcess_guard_released_witness :
    (captureAndProcess failEnv idleState).isUploading = false ∧
    ((List.replicate 100 failEnv).foldl (fun s e => captureAndProcess e s)
      idleState).isUploading = false :=
  ⟨(captureAndProcess_guard_released idleState rfl).1 failEnv,
    (captureAndProcess_guard_released idleState rfl).2
      (List.replicate 100 failEnv)⟩

end EmoCore
